import Mathlib

/-!
Verification development for the metric-calculation engine of the
tensor-expressions web application
(`src/einsum_webapp/src/components/utils/metricCalculation.jsx`).

Modelling conventions for the shallow embedding:

* JS numbers that stay integral (index sizes, dimension products, tensor
  sizes, operation counts) are modelled as `Nat`; all products involved are
  exact in IEEE doubles for realistic inputs, and the one subtraction
  `2*cmn*k - cmn` never underflows because every factor is at least 1.
* JS numbers that can become fractional or non-finite (the percentage
  fields) are modelled as `JSQ := Option ℚ`, where `none` stands for a
  non-finite number (`NaN` or `±Infinity`).  Divisions by zero and
  arithmetic on non-finite operands produce `none`.
* An object field that can be `undefined`, `null`, or a value is modelled
  by `JsField`.
* The index-size object is modelled as `Sizes := String → Nat` where `0`
  encodes a missing entry; the source reads sizes as `indexSizes[i] || 1`,
  and both `undefined` and `0` are falsy in JS, so both map to factor `1`.
* `dimensionTypes` (imported from `dimensionClassifier.jsx`, whose source
  is elsewhere in the repository) is treated as an arbitrary parameter
  `Classifier`; the engine only depends on whether it returns a falsy
  value (modelled `none`) or a dimension-types object.
-/

/-- A JS object field: absent (`undefined`), explicitly `null`, or a value. -/
inductive JsField (α : Type) where
  | undef : JsField α
  | null : JsField α
  | val : α → JsField α
deriving DecidableEq

/-- Whether a field holds an actual value. -/
def JsField.isVal {α : Type} : JsField α → Bool
  | .val _ => true
  | _ => false

/-- A JS number in the percentage computations: `some q` is the finite
rational `q`; `none` is a non-finite number (`NaN` or `±Infinity`). -/
abbrev JSQ := Option ℚ

/-- JS subtraction; any non-finite operand yields a non-finite result
(the operands arising here never produce a finite result from a
non-finite operand). -/
def jsSub (a b : JSQ) : JSQ :=
  match a, b with
  | some x, some y => some (x - y)
  | _, _ => none

/-- JS multiplication; any non-finite operand yields a non-finite result. -/
def jsMul (a b : JSQ) : JSQ :=
  match a, b with
  | some x, some y => some (x * y)
  | _, _ => none

/-- JS division.  Division by zero gives `NaN` or `±Infinity` (both
modelled `none`); a non-finite operand propagates (finite-over-Infinity,
which would be 0 in JS, never occurs in this program). -/
def jsDiv (a b : JSQ) : JSQ :=
  match a, b with
  | some x, some y => if y = 0 then none else some (x / y)
  | _, _ => none

/-- Reading a `JsField Nat` in JS arithmetic: `undefined` coerces to `NaN`
and `null` coerces to `0`. -/
def jsNumF (f : JsField Nat) : JSQ :=
  match f with
  | .undef => none
  | .null => some 0
  | .val n => some (n : ℚ)

/-- Reading a stored percentage (`JsField JSQ`) as a JS number:
`undefined` coerces to `NaN`, `null` to `0`. -/
def jsRead (f : JsField JSQ) : JSQ :=
  match f with
  | .undef => none
  | .null => some 0
  | .val q => q

/-- JS strict equality `===` on our number model.  `NaN === NaN` is false,
and both `NaN` operands map to `none`; the only other non-finite
comparison this program can perform is `Infinity === -Infinity` (from the
empty `Math.min`/`Math.max` spreads), also false, so two `none` operands
are never strictly equal here. -/
def jsStrictEq (a b : JSQ) : Bool :=
  match a, b with
  | some x, some y => x == y
  | _, _ => false

/-- Index-size mapping: `0` encodes a missing entry (JS `undefined`). -/
abbrev Sizes := String → Nat

/-- The factor contributed by one index: `indexSizes[index] || 1`
(`undefined` and `0` are both falsy). -/
def sizeFactor (s : Sizes) (i : String) : Nat :=
  if s i = 0 then 1 else s i

/-- Source `calculateDimensionProduct(dimensions, indexSizes, initialValue)`:
`dimensions.reduce((product, index) => product * (indexSizes[index] || 1),
initialValue)`.  The source defaults `initialValue` to 1; call sites here
pass it explicitly. -/
def calculateDimensionProduct (dims : List String) (s : Sizes) (init : Nat) : Nat :=
  dims.foldl (fun p i => p * sizeFactor s i) init

/-- Source `normalizeToPercentage(value, min, max)`: returns 0 when
`min === max`, otherwise `((value - min) / (max - min)) * 100`. -/
def normalizeToPercentage (value mn mx : JSQ) : JSQ :=
  if jsStrictEq mn mx then some 0
  else jsMul (jsDiv (jsSub value mn) (jsSub mx mn)) (some 100)

/-- An inner dimension-types object (`primitive` or `loop` category):
key (`cb`, `mb`, `nb`, `kb`, `bc`, `bm`, `bn`, `bk`, ...) to index list. -/
abbrev DimObj := List (String × List String)

/-- A generic dimension-types object, as iterated by
`calculateOperations` with nested `for ... in` loops: outer keys
(ordinarily `primitive` and `loop`) to inner objects. -/
abbrev DimTypes := List (String × DimObj)

/-- Property lookup on a JS object modelled as a key/value list. -/
def objGet {α : Type} (o : List (String × α)) (k : String) : Option α :=
  (o.find? (fun p => p.1 == k)).map (fun p => p.2)

/-- Whether an inner key is treated as contracted by
`calculateOperations` (`dim === 'kb' || dim === 'bk'`). -/
def isContractedKey (e : String × List String) : Bool :=
  e.1 == "kb" || e.1 == "bk"

/-- One step of the accumulation in `calculateOperations`: the inner-loop
body folds the entry into the `k` accumulator when the inner key is
`kb` or `bk`, and into the `cmn` accumulator otherwise. -/
def opsStep (s : Sizes) (acc : Nat × Nat) (e : String × List String) : Nat × Nat :=
  if isContractedKey e then
    (acc.1, calculateDimensionProduct e.2 s acc.2)
  else
    (calculateDimensionProduct e.2 s acc.1, acc.2)

/-- Source `calculateOperations(dimTypes, indexSizes)`: iterates all keys of all
categories, folding `kb`/`bk` entries into `k` and every other entry into
`cmn`, and returns `2 * cmn * k - cmn`. -/
def calculateOperations (dt : DimTypes) (s : Sizes) : Nat :=
  let r := dt.foldl (fun acc kv => kv.2.foldl (opsStep s) acc) (1, 1)
  2 * r.1 * r.2 - r.1

/-- All inner entries of a dimension-types object, in iteration order. -/
def opsEntries (dt : DimTypes) : List (String × List String) :=
  (dt.map (fun kv => kv.2)).flatten

/-- Product of the dimension products of a list of entries. -/
def prodOver (l : List (String × List String)) (s : Sizes) : Nat :=
  l.foldl (fun p e => p * calculateDimensionProduct e.2 s 1) 1

/-- The product for one key of one category, `calc(type, dim)` in
`calculateDimProducts`: `calculateDimensionProduct(o[dim] || [], indexSizes)`. -/
def dimObjProd (o : DimObj) (k : String) (s : Sizes) : Nat :=
  calculateDimensionProduct ((objGet o k).getD []) s 1

/-- Source `calculateDimProducts(dimTypes, indexSizes)`: the four role products
`cDim/mDim/nDim/kDim`, each primitive product times loop product.
Accessing a missing `primitive` or `loop` category would throw a
`TypeError` in JS, modelled as `none`. -/
def calculateDimProducts (dt : DimTypes) (s : Sizes) : Option (Nat × Nat × Nat × Nat) :=
  match objGet dt "primitive", objGet dt "loop" with
  | some P, some L =>
    some (dimObjProd P "cb" s * dimObjProd L "bc" s,
          dimObjProd P "mb" s * dimObjProd L "bm" s,
          dimObjProd P "nb" s * dimObjProd L "bn" s,
          dimObjProd P "kb" s * dimObjProd L "bk" s)
  | _, _ => none

/-- Source `calculateByteAccesses(dimTypes, indexSizes)`:
`cmn + cnk + cmk` with `cmn = cDim*mDim*nDim`, `cnk = nDim*kDim`,
`cmk = mDim*kDim`. -/
def calculateByteAccesses (dt : DimTypes) (s : Sizes) : Option Nat :=
  (calculateDimProducts dt s).map (fun x =>
    x.1 * x.2.1 * x.2.2.1 + x.2.2.1 * x.2.2.2 + x.2.1 * x.2.2.2)

/-- A dimension-types object as produced by the classifier, per the data
model: a `primitive` and a `loop` category (inner keys possibly absent). -/
structure DimTypesS where
  primitive : DimObj
  loop : DimObj
deriving DecidableEq

/-- The plain-object view of a classifier result, as the generic
object-iterating functions see it. -/
def dimTypesObj (d : DimTypesS) : DimTypes :=
  [("primitive", d.primitive), ("loop", d.loop)]

/-- Function `calculateByteAccesses` specialised to a classifier result, where the
`primitive`/`loop` lookups always succeed (see `byteAccesses_dimTypesObj`). -/
def byteAccessesS (d : DimTypesS) (s : Sizes) : Nat :=
  let c := dimObjProd d.primitive "cb" s * dimObjProd d.loop "bc" s
  let m := dimObjProd d.primitive "mb" s * dimObjProd d.loop "bm" s
  let n := dimObjProd d.primitive "nb" s * dimObjProd d.loop "bn" s
  let k := dimObjProd d.primitive "kb" s * dimObjProd d.loop "bk" s
  c * m * n + n * k + m * k

/-- Source `dimensionTypes(node.value, left.value, right.value)` from
`dimensionClassifier.jsx` (source outside this directory): the engine
depends only on whether it returns a falsy value (`none`) or an object. -/
abbrev Classifier := List String → List String → List String → Option DimTypesS

/-- The derived annotation fields the engine writes onto a tree node. -/
structure Ann where
  tensorSize : JsField Nat
  sizePercentage : JsField JSQ
  normalizedSizePercentage : JsField JSQ
  operations : JsField Nat
  operationsPercentage : JsField JSQ
  normalizedPercentage : JsField JSQ
  byteAccesses : JsField Nat
  totalOperations : JsField Nat
deriving DecidableEq

/-- A node with no annotation written yet. -/
def Ann.fresh : Ann :=
  ⟨.undef, .undef, .undef, .undef, .undef, .undef, .undef, .undef⟩

/-- A contraction-tree node with its annotation state.  `nil` is a JS
`null`/absent child; `mk value ann left right` is a node object. -/
inductive ATree where
  | nil : ATree
  | mk : List String → Ann → ATree → ATree → ATree
deriving DecidableEq

/-- The bare value/shape skeleton of a tree (what the control flow of the
traversals depends on). -/
inductive Skel where
  | nil : Skel
  | mk : List String → Skel → Skel → Skel
deriving DecidableEq

/-- Skeleton of an annotated tree. -/
def ATree.skel : ATree → Skel
  | .nil => .nil
  | .mk v _ l r => .mk v l.skel r.skel

/-- All `(value, annotation)` pairs of a tree, in preorder. -/
def nodeList : ATree → List (List String × Ann)
  | .nil => []
  | .mk v a l r => (v, a) :: (nodeList l ++ nodeList r)

/-- The projections of one annotation field over all nodes, in preorder. -/
def fieldList {α : Type} (f : Ann → α) (t : ATree) : List α :=
  (nodeList t).map (fun p => f p.2)

/-- The running statistics object of `calculateNodeMetrics`.
`minTensorSize` starts at `Infinity`, modelled as `none`. -/
structure Stats where
  totalTensorSize : Nat
  maxTensorSize : Nat
  minTensorSize : Option Nat
deriving DecidableEq

/-- Initial statistics `{ totalTensorSize: 0, maxTensorSize: 0, minTensorSize: Infinity }`. -/
def initialStats : Stats := ⟨0, 0, none⟩

/-- Source `calculateNodeSizes(node, indexSizes, dataTypeSize, stats)`: preorder
pass writing `tensorSize` on every node and folding it into the running
total/max/min statistics. -/
def calculateNodeSizes : ATree → Sizes → Nat → Stats → ATree × Stats
  | .nil, _, _, st => (.nil, st)
  | .mk v a l r, s, d, st =>
    let ts := calculateDimensionProduct v s 1 * d
    let st1 : Stats :=
      ⟨st.totalTensorSize + ts, max st.maxTensorSize ts,
       some (match st.minTensorSize with | none => ts | some m => min m ts)⟩
    let pl := calculateNodeSizes l s d st1
    let pr := calculateNodeSizes r s d pl.2
    (.mk v { a with tensorSize := .val ts } pl.1 pr.1, pr.2)

/-- Reading `stats.minTensorSize` as a JS number (`Infinity` when no node has
been visited, modelled `none`). -/
def statsMinJ (st : Stats) : JSQ :=
  match st.minTensorSize with
  | none => none
  | some m => some (m : ℚ)

/-- Source `addSizePercentages(node, stats)`: writes
`sizePercentage = tensorSize / totalTensorSize * 100` and
`normalizedSizePercentage = normalizeToPercentage(tensorSize,
minTensorSize, maxTensorSize)` on every node. -/
def addSizePercentages : ATree → Stats → ATree
  | .nil, _ => .nil
  | .mk v a l r, st =>
    let sp := jsMul (jsDiv (jsNumF a.tensorSize) (some (st.totalTensorSize : ℚ))) (some 100)
    let nsp := normalizeToPercentage (jsNumF a.tensorSize) (statsMinJ st) (some (st.maxTensorSize : ℚ))
    .mk v { a with sizePercentage := .val sp, normalizedSizePercentage := .val nsp }
      (addSizePercentages l st) (addSizePercentages r st)

/-- The per-node update of `resetTreeOperations`. -/
def resetAnn (a : Ann) : Ann :=
  { a with operations := .null, operationsPercentage := .null, normalizedPercentage := .null }

/-- Source `resetTreeOperations(node)`: sets `operations`,
`operationsPercentage` and `normalizedPercentage` to `null` on every
node. -/
def resetTreeOperations : ATree → ATree
  | .nil => .nil
  | .mk v a l r => .mk v (resetAnn a) (resetTreeOperations l) (resetTreeOperations r)

/-- A step in a path from the root: left or right child. -/
inductive Dir where
  | L : Dir
  | R : Dir
deriving DecidableEq

/-- Result of `calculateNodeOperations`: the tree with `byteAccesses` /
`operations` written on the classified nodes, the returned
`{ hasError, operations }`, and the `faultyNodes` / `binaryNodes`
accumulator arrays (entries are root paths, standing for the node
references the source pushes). -/
structure OpsOut where
  tree : ATree
  hasError : Bool
  operations : Nat
  faulty : List (List Dir)
  binary : List (List Dir)
deriving DecidableEq

/-- Source `calculateNodeOperations(node, indexSizes, faultyNodes, binaryNodes)`:
post-order pass.  A node without a left child returns
`{ hasError: false, operations: 0 }` immediately (its right subtree, if
any, is never visited).  A node with only a left child propagates the
left result.  A node with both children recursively processes both,
classifies via `dimensionTypes`; on a falsy result it pushes the node to
`faultyNodes` and returns `{ hasError: true, operations: 0 }`; otherwise
it writes `byteAccesses`/`operations`, adds its own cost, and pushes the
node to `binaryNodes`. -/
def calculateNodeOperations : ATree → Sizes → Classifier → List Dir →
    List (List Dir) → List (List Dir) → OpsOut
  | .nil, _, _, _, fa, bi => ⟨.nil, false, 0, fa, bi⟩
  | .mk v a l r, s, cl, path, fa, bi =>
    match l with
    | .nil => ⟨.mk v a .nil r, false, 0, fa, bi⟩
    | .mk lv la ll lr =>
      let L := calculateNodeOperations (.mk lv la ll lr) s cl (path ++ [Dir.L]) fa bi
      match r with
      | .nil => ⟨.mk v a L.tree .nil, L.hasError, L.operations, L.faulty, L.binary⟩
      | .mk rv ra rl rr =>
        let R := calculateNodeOperations (.mk rv ra rl rr) s cl (path ++ [Dir.R]) L.faulty L.binary
        match cl v lv rv with
        | none => ⟨.mk v a L.tree R.tree, true, 0, R.faulty ++ [path], R.binary⟩
        | some dt =>
          let ops := calculateOperations (dimTypesObj dt) s
          ⟨.mk v { a with byteAccesses := .val (byteAccessesS dt s), operations := .val ops }
             L.tree R.tree,
           L.hasError || R.hasError, L.operations + R.operations + ops,
           R.faulty, R.binary ++ [path]⟩

/-- The annotation at a root path, if the path exists. -/
def annAt : ATree → List Dir → Option Ann
  | .nil, _ => none
  | .mk _ a _ _, [] => some a
  | .mk _ _ l _, Dir.L :: p => annAt l p
  | .mk _ _ _ r, Dir.R :: p => annAt r p

/-- Rewrite the annotation at a root path (mutation of the node object
the path stands for). -/
def updateAt : ATree → List Dir → (Ann → Ann) → ATree
  | .nil, _, _ => .nil
  | .mk v a l r, [], g => .mk v (g a) l r
  | .mk v a l r, Dir.L :: p, g => .mk v a (updateAt l p g) r
  | .mk v a l r, Dir.R :: p, g => .mk v a l (updateAt r p g)

/-- Binary `Math.min` of two JS numbers (`NaN` poisons; `±Infinity` operands do
not arise among the collected percentages). -/
def jsMin2 (a b : JSQ) : JSQ :=
  match a, b with
  | some x, some y => some (min x y)
  | _, _ => none

/-- Binary `Math.max` of two JS numbers. -/
def jsMax2 (a b : JSQ) : JSQ :=
  match a, b with
  | some x, some y => some (max x y)
  | _, _ => none

/-- Source `Math.min(...percentages) || 0`: an empty spread gives `Infinity`,
which is truthy and kept (modelled `none`); a `NaN` result is falsy and
replaced by `0`. -/
def jsMinOr0 (l : List JSQ) : JSQ :=
  match l with
  | [] => none
  | x :: xs =>
    match xs.foldl jsMin2 x with
    | none => some 0
    | some q => some q

/-- Source `Math.max(...percentages) || 0`: an empty spread gives `-Infinity`,
truthy and kept (modelled `none`); a `NaN` result is replaced by `0`. -/
def jsMaxOr0 (l : List JSQ) : JSQ :=
  match l with
  | [] => none
  | x :: xs =>
    match xs.foldl jsMax2 x with
    | none => some 0
    | some q => some q

/-- The inner `addNormalizedPercentages` of `addOperationPercentages`:
writes `normalizedPercentage` on every node that has both children. -/
def addNormalizedPercentages (mnP mxP : JSQ) : ATree → ATree
  | .nil => .nil
  | .mk v a l r =>
    let a2 :=
      match l, r with
      | .mk _ _ _ _, .mk _ _ _ _ =>
        { a with normalizedPercentage :=
            JsField.val (normalizeToPercentage (jsRead a.operationsPercentage) mnP mxP) }
      | _, _ => a
    .mk v a2 (addNormalizedPercentages mnP mxP l) (addNormalizedPercentages mnP mxP r)

/-- Source `addOperationPercentages(tree, binaryNodes, totalOperations)`: the
`forEach` writes `operationsPercentage = operations/totalOperations*100`
and `totalOperations` on each collected binary node, then the collected
percentages are min/max-normalised over the binary nodes. -/
def addOperationPercentages (tree : ATree) (binary : List (List Dir))
    (totalOperations : Nat) : ATree :=
  let t1 := binary.foldl (fun t p => updateAt t p (fun a =>
      { a with
          operationsPercentage :=
            .val (jsMul (jsDiv (jsNumF a.operations) (some (totalOperations : ℚ))) (some 100)),
          totalOperations := .val totalOperations })) tree
  let percentages := binary.map (fun p => jsRead (((annAt t1 p).getD Ann.fresh).operationsPercentage))
  addNormalizedPercentages (jsMinOr0 percentages) (jsMaxOr0 percentages) t1

/-- Assignment `tree.totalOperations = operations` on the root node. -/
def setRootTotalOps (t : ATree) (n : Nat) : ATree :=
  match t with
  | .nil => .nil
  | .mk v a l r => .mk v { a with totalOperations := .val n } l r

/-- The `{ totalOperations, faultyNodes }` summary of
`calculateNodeMetrics`, together with the annotated tree (mutated in
place in the source). -/
structure MetricsOut where
  tree : ATree
  totalOperations : Nat
  faultyNodes : List (List Dir)
deriving DecidableEq

/-- Source `calculateNodeMetrics(indexSizes, tree, dataTypeSize)`: null tree
short-circuits; otherwise size annotation, size percentages, operation
annotation; on error the operation annotations are reset tree-wide and
`{ totalOperations: 0, faultyNodes }` is returned; on success the root
gets `totalOperations` and operation percentages are added. -/
def calculateNodeMetrics (indexSizes : Sizes) (tree : ATree) (dataTypeSize : Nat)
    (cl : Classifier) : MetricsOut :=
  match tree with
  | .nil => ⟨.nil, 0, []⟩
  | .mk v a l r =>
    let p := calculateNodeSizes (.mk v a l r) indexSizes dataTypeSize initialStats
    let t2 := addSizePercentages p.1 p.2
    let o := calculateNodeOperations t2 indexSizes cl [] [] []
    if o.hasError then ⟨resetTreeOperations o.tree, 0, o.faulty⟩
    else
      let t4 := setRootTotalOps o.tree o.operations
      let t5 := addOperationPercentages t4 o.binary o.operations
      ⟨t5, o.operations, o.faulty⟩

/-- Whether the operations pass reaches a node whose classification
fails: a two-child node with a falsy classifier result, not hidden below
a node lacking a left child (such nodes return before visiting their
right subtree). -/
def reachesFailure (cl : Classifier) : Skel → Bool
  | .nil => false
  | .mk v l r =>
    match l with
    | .nil => false
    | .mk lv ll lr =>
      reachesFailure cl (.mk lv ll lr) ||
      (match r with
       | .nil => false
       | .mk rv rl rr => reachesFailure cl (.mk rv rl rr) || (cl v lv rv).isNone)

/-- Whether the tree contains, anywhere, a two-child node whose
classification would fail. -/
def containsFailingNode (cl : Classifier) : Skel → Bool
  | .nil => false
  | .mk v l r =>
    (match l, r with
     | .mk lv _ _, .mk rv _ _ => (cl v lv rv).isNone
     | _, _ => false) ||
    containsFailingNode cl l || containsFailingNode cl r

/-- Whether no node has both children. -/
def noBinaryNode : Skel → Bool
  | .nil => true
  | .mk _ l r =>
    (match l, r with
     | .mk _ _ _, .mk _ _ _ => false
     | _, _ => true) &&
    noBinaryNode l && noBinaryNode r

/-- Sum, over all nodes, of the element count times data-type size. -/
def treeTensorSum (s : Sizes) (d : Nat) : ATree → Nat
  | .nil => 0
  | .mk v _ l r => calculateDimensionProduct v s 1 * d + treeTensorSum s d l + treeTensorSum s d r

/-- The value of a `JsField Nat`, zero when absent. -/
def jsValNat : JsField Nat → Nat
  | .val n => n
  | _ => 0

/-- Sum of the written `tensorSize` values over the leaf nodes only. -/
def leafTensorSum : ATree → Nat
  | .nil => 0
  | .mk _ a .nil .nil => jsValNat a.tensorSize
  | .mk _ _ l r => leafTensorSum l + leafTensorSum r

/-- The size pass of `calculateNodeMetrics`: `calculateNodeSizes` from
the initial statistics. -/
def sizedPass (s : Sizes) (t : ATree) (d : Nat) : ATree × Stats :=
  calculateNodeSizes t s d initialStats

/-- The operations pass of `calculateNodeMetrics`: `calculateNodeOperations`
on the size-annotated tree, with empty accumulator arrays. -/
def opsPhase (s : Sizes) (t : ATree) (d : Nat) (cl : Classifier) : OpsOut :=
  calculateNodeOperations (addSizePercentages (sizedPass s t d).1 (sizedPass s t d).2) s cl [] [] []

/-- Fixture sizes: `{ i: 2, j: 3, k: 4 }` (the spec's worked example). -/
def s234 : Sizes := fun i =>
  if i = "i" then 2 else if i = "j" then 3 else if i = "k" then 4 else 0

/-- Fixture classifier result for the contraction
`['i','j'] ← ['i','k'] × ['k','j']`: `m = i`, `n = j`, `k = k`, no batch
or loop dimensions. -/
def dtGood : DimTypesS :=
  ⟨[("cb", []), ("mb", ["i"]), ("nb", ["j"]), ("kb", ["k"])],
   [("bc", []), ("bm", []), ("bn", []), ("bk", [])]⟩

/-- Leaf fixture `['i','k']`. -/
def leafIK : ATree := .mk ["i", "k"] Ann.fresh .nil .nil

/-- Leaf fixture `['k','j']`. -/
def leafKJ : ATree := .mk ["k", "j"] Ann.fresh .nil .nil

/-- A valid binary contraction node `['i','j']` over the two leaves. -/
def nodeIJ : ATree := .mk ["i", "j"] Ann.fresh leafIK leafKJ

/-- Fixture classifier: fails on a node labelled `['x']`, classifies
every other node as the `dtGood` contraction. -/
def clGood : Classifier := fun v _ _ => if v = ["x"] then none else some dtGood

/-- Classifier that always fails. -/
def clNone : Classifier := fun _ _ _ => none

/-- Tree whose root lacks a left child while its right subtree contains a
two-child node: the operations pass never visits the right subtree. -/
def cexC3 : ATree := .mk ["a"] Ann.fresh .nil nodeIJ

/-- Tree whose root fails classification while its left child is a valid
binary contraction and its right child is a leaf. -/
def cexC4 : ATree := .mk ["x"] Ann.fresh nodeIJ (.mk ["z"] Ann.fresh .nil .nil)

/-- Tree of three nodes all labelled `['i']`: two leaves under a root. -/
def cexC5 : ATree :=
  .mk ["i"] Ann.fresh (.mk ["i"] Ann.fresh .nil .nil) (.mk ["i"] Ann.fresh .nil .nil)

/-- A single leaf labelled `['i']`. -/
def cexC6 : ATree := .mk ["i"] Ann.fresh .nil .nil

/-- A root with only a left child: no binary node anywhere. -/
def wTreeC7 : ATree := .mk ["i"] Ann.fresh (.mk ["i"] Ann.fresh .nil .nil) .nil

/-- Root annotation carrying a `totalOperations` value from an earlier
successful pass. -/
def annTot99 : Ann := { Ann.fresh with totalOperations := .val 99 }

/-- Failing-root tree whose root already carries `totalOperations` from
an earlier pass. -/
def wTreeC10 : ATree := .mk ["x"] annTot99 nodeIJ (.mk ["z"] Ann.fresh .nil .nil)

lemma foldl_mul_factor {α : Type} (c : α → Nat) :
    ∀ (l : List α) (a : Nat), l.foldl (fun p x => p * c x) a = a * l.foldl (fun p x => p * c x) 1
  | [], a => by simp
  | x :: xs, a => by
    simp only [List.foldl_cons]
    rw [foldl_mul_factor c xs (a * c x), foldl_mul_factor c xs (1 * c x)]
    ring

lemma calculateDimensionProduct_factor (dims : List String) (s : Sizes) (a : Nat) :
    calculateDimensionProduct dims s a = a * calculateDimensionProduct dims s 1 :=
  foldl_mul_factor (sizeFactor s) dims a

lemma one_le_sizeFactor (s : Sizes) (i : String) : 1 ≤ sizeFactor s i := by
  unfold sizeFactor
  split
  · exact le_refl 1
  · exact Nat.one_le_iff_ne_zero.mpr (by assumption)

lemma one_le_foldl_mul {α : Type} (c : α → Nat) (hc : ∀ x, 1 ≤ c x) :
    ∀ (l : List α) (a : Nat), 1 ≤ a → 1 ≤ l.foldl (fun p x => p * c x) a
  | [], _, ha => ha
  | x :: xs, a, ha => by
    simp only [List.foldl_cons]
    exact one_le_foldl_mul c hc xs (a * c x) (Nat.one_le_iff_ne_zero.mpr
      (Nat.mul_ne_zero (Nat.one_le_iff_ne_zero.mp ha) (Nat.one_le_iff_ne_zero.mp (hc x))))

lemma one_le_calculateDimensionProduct (dims : List String) (s : Sizes) :
    1 ≤ calculateDimensionProduct dims s 1 :=
  one_le_foldl_mul (sizeFactor s) (one_le_sizeFactor s) dims 1 (le_refl 1)

lemma one_le_prodOver (l : List (String × List String)) (s : Sizes) : 1 ≤ prodOver l s := by
  unfold prodOver
  exact one_le_foldl_mul (fun e => calculateDimensionProduct e.2 s 1)
    (fun e => one_le_calculateDimensionProduct e.2 s) l 1 (le_refl 1)

lemma prodOver_cons (e : String × List String) (l : List (String × List String)) (s : Sizes) :
    prodOver (e :: l) s = calculateDimensionProduct e.2 s 1 * prodOver l s := by
  unfold prodOver
  simp only [List.foldl_cons]
  rw [foldl_mul_factor (fun e => calculateDimensionProduct e.2 s 1) l
    (1 * calculateDimensionProduct e.2 s 1)]
  ring

lemma opsEntries_cons (kv : String × DimObj) (dt : DimTypes) :
    opsEntries (kv :: dt) = kv.2 ++ opsEntries dt := by
  simp [opsEntries]

lemma foldl_opsEntries (s : Sizes) :
    ∀ (dt : DimTypes) (acc : Nat × Nat),
      dt.foldl (fun acc kv => kv.2.foldl (opsStep s) acc) acc = (opsEntries dt).foldl (opsStep s) acc
  | [], acc => by simp [opsEntries]
  | kv :: dt, acc => by
    simp only [List.foldl_cons]
    rw [foldl_opsEntries s dt, opsEntries_cons, List.foldl_append]

lemma foldl_opsStep_inv (s : Sizes) :
    ∀ (l : List (String × List String)) (a b : Nat),
      l.foldl (opsStep s) (a, b) =
        (a * prodOver (l.filter (fun e => !isContractedKey e)) s,
         b * prodOver (l.filter isContractedKey) s)
  | [], a, b => by simp [prodOver]
  | e :: l, a, b => by
    by_cases h : isContractedKey e
    · simp only [List.foldl_cons, List.filter_cons, h]
      rw [show opsStep s (a, b) e = (a, calculateDimensionProduct e.2 s b) by
        simp [opsStep, h]]
      rw [foldl_opsStep_inv s l a (calculateDimensionProduct e.2 s b)]
      simp only [Bool.not_true, Bool.false_eq_true, if_false, if_true]
      rw [prodOver_cons, calculateDimensionProduct_factor e.2 s b]
      ring_nf
    · simp only [List.foldl_cons, List.filter_cons, h]
      rw [show opsStep s (a, b) e = (calculateDimensionProduct e.2 s a, b) by
        simp [opsStep, h]]
      rw [foldl_opsStep_inv s l (calculateDimensionProduct e.2 s a) b]
      simp only [Bool.not_false, Bool.false_eq_true, if_false, if_true]
      rw [prodOver_cons, calculateDimensionProduct_factor e.2 s a]
      ring_nf

/-- C1: for every dimension-types object and index-size mapping,
`calculateOperations` returns `2·cmn·k − cmn` (as integers), where `cmn`
is the product of the sizes of all indices listed under keys other than
`kb`/`bk` and `k` is the product of the sizes under the keys `kb` and
`bk`; exactly the keys `kb` and `bk` are treated as contracted.  The
single-binary-contraction case of the claim is the instance where the
non-contracted product is `n` and the contracted product is `k`. -/
theorem c1_calculateOperations_formula (dt : DimTypes) (s : Sizes) :
    (calculateOperations dt s : ℤ) =
      2 * (prodOver ((opsEntries dt).filter (fun e => !isContractedKey e)) s : ℤ) *
        (prodOver ((opsEntries dt).filter isContractedKey) s : ℤ) -
      (prodOver ((opsEntries dt).filter (fun e => !isContractedKey e)) s : ℤ) := by
  have hfold :
      dt.foldl (fun acc kv => kv.2.foldl (opsStep s) acc) (1, 1) =
        (prodOver ((opsEntries dt).filter (fun e => !isContractedKey e)) s,
         prodOver ((opsEntries dt).filter isContractedKey) s) := by
    rw [foldl_opsEntries s dt, foldl_opsStep_inv s (opsEntries dt) 1 1]
    simp
  set c := prodOver ((opsEntries dt).filter (fun e => !isContractedKey e)) s with hc
  set k := prodOver ((opsEntries dt).filter isContractedKey) s with hk
  have h1 : 1 ≤ c := one_le_prodOver _ s
  have h2 : 1 ≤ k := one_le_prodOver _ s
  have hle : c ≤ 2 * c * k := by nlinarith
  unfold calculateOperations
  rw [hfold]
  push_cast [Nat.cast_sub hle]
  ring

lemma byteAccesses_dimTypesObj (d : DimTypesS) (s : Sizes) :
    calculateByteAccesses (dimTypesObj d) s = some (byteAccessesS d s) := rfl

/-- C2: for every dimension-types object containing its `primitive` and
`loop` categories, `calculateByteAccesses` returns
`cDim·mDim·nDim + nDim·kDim + mDim·kDim`, where each of
`cDim/mDim/nDim/kDim` is the product of that role's primitive-size times
that role's loop-size; this is the `cmn + cnk + cmk` element count of
the three tensors, and holds whether or not batch/loop dimensions are
present. -/
theorem c2_calculateByteAccesses_formula (dt : DimTypes) (s : Sizes) (P L : DimObj)
    (hP : objGet dt "primitive" = some P) (hL : objGet dt "loop" = some L) :
    calculateByteAccesses dt s =
      some ((dimObjProd P "cb" s * dimObjProd L "bc" s) *
              (dimObjProd P "mb" s * dimObjProd L "bm" s) *
              (dimObjProd P "nb" s * dimObjProd L "bn" s) +
            (dimObjProd P "nb" s * dimObjProd L "bn" s) *
              (dimObjProd P "kb" s * dimObjProd L "bk" s) +
            (dimObjProd P "mb" s * dimObjProd L "bm" s) *
              (dimObjProd P "kb" s * dimObjProd L "bk" s)) := by
  simp [calculateByteAccesses, calculateDimProducts, hP, hL]

/-- C2 witness: on the spec's worked example (`i=2, j=3, k=4`, roles
`m=i`, `n=j`, `k=k`), the byte-access count is `6 + 12 + 8 = 26`. -/
theorem c2_witness :
    objGet (dimTypesObj dtGood) "primitive" = some dtGood.primitive ∧
    calculateByteAccesses (dimTypesObj dtGood) s234 = some 26 := by
  refine ⟨by decide, ?_⟩
  rw [c2_calculateByteAccesses_formula (dimTypesObj dtGood) s234 dtGood.primitive dtGood.loop
    (by decide) (by decide)]
  decide

/-- C8: `normalizeToPercentage(v, min, max)` returns exactly 0 whenever
`min === max` (for any value `v`), and `((v − min)/(max − min))·100`
otherwise.  JS numbers are modelled as rationals. -/
theorem c8_normalizeToPercentage_cases (v mn mx : ℚ) :
    (mn = mx → normalizeToPercentage (some v) (some mn) (some mx) = some 0) ∧
    (mn ≠ mx → normalizeToPercentage (some v) (some mn) (some mx) =
      some ((v - mn) / (mx - mn) * 100)) := by
  constructor
  · intro h
    subst h
    simp [normalizeToPercentage, jsStrictEq]
  · intro h
    have hne : mx - mn ≠ 0 := sub_ne_zero.mpr (Ne.symm h)
    simp [normalizeToPercentage, jsStrictEq, h, jsSub, jsDiv, jsMul, hne]

/-- C8 witness: concrete instances of both branches. -/
theorem c8_witness :
    normalizeToPercentage (some 5) (some 3) (some 3) = some 0 ∧
    normalizeToPercentage (some 5) (some 3) (some 4) = some 200 := by
  constructor
  · exact (c8_normalizeToPercentage_cases 5 3 3).1 rfl
  · rw [(c8_normalizeToPercentage_cases 5 3 4).2 (by norm_num)]
    norm_num

lemma fieldList_nil {α : Type} (f : Ann → α) : fieldList f ATree.nil = [] := rfl

lemma fieldList_mk {α : Type} (f : Ann → α) (v : List String) (a : Ann) (l r : ATree) :
    fieldList f (ATree.mk v a l r) = f a :: (fieldList f l ++ fieldList f r) := by
  simp [fieldList, nodeList]

lemma reset_frame {α : Type} (f : Ann → α) (hf : ∀ a, f (resetAnn a) = f a) :
    ∀ t : ATree, fieldList f (resetTreeOperations t) = fieldList f t
  | .nil => rfl
  | .mk v a l r => by
    simp only [resetTreeOperations, fieldList_mk]
    rw [hf, reset_frame f hf l, reset_frame f hf r]

lemma reset_skel : ∀ t : ATree, (resetTreeOperations t).skel = t.skel
  | .nil => rfl
  | .mk v a l r => by
    simp only [resetTreeOperations, ATree.skel]
    rw [reset_skel l, reset_skel r]

lemma reset_nulls : ∀ t : ATree, ∀ p ∈ nodeList (resetTreeOperations t),
    p.2.operations = JsField.null ∧ p.2.operationsPercentage = JsField.null ∧
      p.2.normalizedPercentage = JsField.null
  | .nil => by simp [resetTreeOperations, nodeList]
  | .mk v a l r => by
    intro p hp
    simp only [resetTreeOperations, nodeList, List.mem_cons, List.mem_append] at hp
    rcases hp with h | h | h
    · subst h
      simp [resetAnn]
    · exact reset_nulls l p h
    · exact reset_nulls r p h

lemma sizes_skel : ∀ (t : ATree) (s : Sizes) (d : Nat) (st : Stats),
    ((calculateNodeSizes t s d st).1).skel = t.skel
  | .nil, _, _, _ => rfl
  | .mk v a l r, s, d, st => by
    simp only [calculateNodeSizes, ATree.skel]
    rw [sizes_skel l, sizes_skel r]

lemma sizes_frame {α : Type} (f : Ann → α)
    (hf : ∀ a n, f { a with tensorSize := JsField.val n } = f a) :
    ∀ (t : ATree) (s : Sizes) (d : Nat) (st : Stats),
      fieldList f ((calculateNodeSizes t s d st).1) = fieldList f t
  | .nil, _, _, _ => rfl
  | .mk v a l r, s, d, st => by
    simp only [calculateNodeSizes, fieldList_mk]
    rw [hf, sizes_frame f hf l, sizes_frame f hf r]

lemma sizes_writes : ∀ (t : ATree) (s : Sizes) (d : Nat) (st : Stats),
    fieldList Ann.tensorSize ((calculateNodeSizes t s d st).1) =
      (nodeList t).map (fun p => JsField.val (calculateDimensionProduct p.1 s 1 * d))
  | .nil, _, _, _ => rfl
  | .mk v a l r, s, d, st => by
    simp only [calculateNodeSizes, fieldList_mk, nodeList, List.map_cons, List.map_append]
    rw [sizes_writes l, sizes_writes r]

lemma sizes_total : ∀ (t : ATree) (s : Sizes) (d : Nat) (st : Stats),
    ((calculateNodeSizes t s d st).2).totalTensorSize = st.totalTensorSize + treeTensorSum s d t
  | .nil, _, _, _ => by simp [calculateNodeSizes, treeTensorSum]
  | .mk v a l r, s, d, st => by
    simp only [calculateNodeSizes, treeTensorSum]
    rw [sizes_total r, sizes_total l]
    simp only []
    omega

lemma sp_skel : ∀ (t : ATree) (st : Stats), (addSizePercentages t st).skel = t.skel
  | .nil, _ => rfl
  | .mk v a l r, st => by
    simp only [addSizePercentages, ATree.skel]
    rw [sp_skel l, sp_skel r]

lemma sp_frame {α : Type} (f : Ann → α)
    (hf : ∀ a x y,
      f { a with sizePercentage := JsField.val x, normalizedSizePercentage := JsField.val y }
        = f a) :
    ∀ (t : ATree) (st : Stats), fieldList f (addSizePercentages t st) = fieldList f t
  | .nil, _ => rfl
  | .mk v a l r, st => by
    simp only [addSizePercentages, fieldList_mk]
    rw [hf, sp_frame f hf l, sp_frame f hf r]

lemma sp_writes_sp : ∀ (t : ATree) (st : Stats),
    fieldList Ann.sizePercentage (addSizePercentages t st) =
      (fieldList Ann.tensorSize t).map (fun ts =>
        JsField.val (jsMul (jsDiv (jsNumF ts) (some (st.totalTensorSize : ℚ))) (some 100)))
  | .nil, _ => rfl
  | .mk v a l r, st => by
    simp only [addSizePercentages, fieldList_mk, List.map_cons, List.map_append]
    rw [sp_writes_sp l, sp_writes_sp r]

lemma sp_writes_nsp : ∀ (t : ATree) (st : Stats),
    ∀ x ∈ fieldList Ann.normalizedSizePercentage (addSizePercentages t st), x.isVal = true
  | .nil, _ => by simp [fieldList_nil, addSizePercentages]
  | .mk v a l r, st => by
    intro x hx
    simp only [addSizePercentages, fieldList_mk, List.mem_cons, List.mem_append] at hx
    rcases hx with h | h | h
    · subst h
      rfl
    · exact sp_writes_nsp l st x h
    · exact sp_writes_nsp r st x h

lemma opsPass_nil (s : Sizes) (cl : Classifier) (path : List Dir) (fa bi : List (List Dir)) :
    calculateNodeOperations .nil s cl path fa bi = ⟨.nil, false, 0, fa, bi⟩ := rfl

lemma opsPass_noLeft (v : List String) (a : Ann) (r : ATree) (s : Sizes) (cl : Classifier)
    (path : List Dir) (fa bi : List (List Dir)) :
    calculateNodeOperations (.mk v a .nil r) s cl path fa bi =
      ⟨.mk v a .nil r, false, 0, fa, bi⟩ := rfl

lemma opsPass_leftOnly (v : List String) (a : Ann) (lv : List String) (la : Ann)
    (ll lr : ATree) (s : Sizes) (cl : Classifier) (path : List Dir) (fa bi : List (List Dir)) :
    calculateNodeOperations (.mk v a (.mk lv la ll lr) .nil) s cl path fa bi =
      (let L := calculateNodeOperations (.mk lv la ll lr) s cl (path ++ [Dir.L]) fa bi
       ⟨.mk v a L.tree .nil, L.hasError, L.operations, L.faulty, L.binary⟩) := rfl

lemma opsPass_binary (v : List String) (a : Ann) (lv : List String) (la : Ann) (ll lr : ATree)
    (rv : List String) (ra : Ann) (rl rr : ATree) (s : Sizes) (cl : Classifier)
    (path : List Dir) (fa bi : List (List Dir)) :
    calculateNodeOperations (.mk v a (.mk lv la ll lr) (.mk rv ra rl rr)) s cl path fa bi =
      (let L := calculateNodeOperations (.mk lv la ll lr) s cl (path ++ [Dir.L]) fa bi
       let R := calculateNodeOperations (.mk rv ra rl rr) s cl (path ++ [Dir.R]) L.faulty L.binary
       match cl v lv rv with
       | none => ⟨.mk v a L.tree R.tree, true, 0, R.faulty ++ [path], R.binary⟩
       | some dt =>
         let ops := calculateOperations (dimTypesObj dt) s
         ⟨.mk v { a with byteAccesses := .val (byteAccessesS dt s), operations := .val ops }
            L.tree R.tree,
          L.hasError || R.hasError, L.operations + R.operations + ops,
          R.faulty, R.binary ++ [path]⟩) := rfl

lemma opsPass_skel : ∀ (t : ATree) (s : Sizes) (cl : Classifier) (path : List Dir)
    (fa bi : List (List Dir)), ((calculateNodeOperations t s cl path fa bi).tree).skel = t.skel
  | .nil, _, _, _, _, _ => rfl
  | .mk v a .nil r, _, _, _, _, _ => rfl
  | .mk v a (.mk lv la ll lr) .nil, s, cl, path, fa, bi => by
    rw [opsPass_leftOnly]
    simp only [ATree.skel]
    rw [opsPass_skel (.mk lv la ll lr) s cl (path ++ [Dir.L]) fa bi]
    rfl
  | .mk v a (.mk lv la ll lr) (.mk rv ra rl rr), s, cl, path, fa, bi => by
    rw [opsPass_binary]
    rcases h : cl v lv rv with _ | dt
    · simp only [h, ATree.skel]
      rw [opsPass_skel (.mk lv la ll lr) s cl (path ++ [Dir.L]) fa bi,
        opsPass_skel (.mk rv ra rl rr) s cl (path ++ [Dir.R]) _ _]
      rfl
    · simp only [h, ATree.skel]
      rw [opsPass_skel (.mk lv la ll lr) s cl (path ++ [Dir.L]) fa bi,
        opsPass_skel (.mk rv ra rl rr) s cl (path ++ [Dir.R]) _ _]
      rfl

lemma opsPass_frame {α : Type} (f : Ann → α)
    (hf : ∀ a b o,
      f { a with byteAccesses := JsField.val b, operations := JsField.val o } = f a) :
    ∀ (t : ATree) (s : Sizes) (cl : Classifier) (path : List Dir) (fa bi : List (List Dir)),
      fieldList f ((calculateNodeOperations t s cl path fa bi).tree) = fieldList f t
  | .nil, _, _, _, _, _ => rfl
  | .mk v a .nil r, _, _, _, _, _ => rfl
  | .mk v a (.mk lv la ll lr) .nil, s, cl, path, fa, bi => by
    rw [opsPass_leftOnly]
    simp only [fieldList_mk]
    rw [opsPass_frame f hf (.mk lv la ll lr) s cl (path ++ [Dir.L]) fa bi]
    simp [fieldList_mk, fieldList_nil]
  | .mk v a (.mk lv la ll lr) (.mk rv ra rl rr), s, cl, path, fa, bi => by
    rw [opsPass_binary]
    rcases h : cl v lv rv with _ | dt
    · simp only [h, fieldList_mk]
      rw [opsPass_frame f hf (.mk lv la ll lr) s cl (path ++ [Dir.L]) fa bi,
        opsPass_frame f hf (.mk rv ra rl rr) s cl (path ++ [Dir.R]) _ _]
      simp [fieldList_mk]
    · simp only [h, fieldList_mk]
      rw [hf, opsPass_frame f hf (.mk lv la ll lr) s cl (path ++ [Dir.L]) fa bi,
        opsPass_frame f hf (.mk rv ra rl rr) s cl (path ++ [Dir.R]) _ _]
      simp [fieldList_mk]

lemma opsPass_hasError : ∀ (t : ATree) (s : Sizes) (cl : Classifier) (path : List Dir)
    (fa bi : List (List Dir)),
      (calculateNodeOperations t s cl path fa bi).hasError = reachesFailure cl t.skel
  | .nil, _, _, _, _, _ => rfl
  | .mk v a .nil r, _, _, _, _, _ => rfl
  | .mk v a (.mk lv la ll lr) .nil, s, cl, path, fa, bi => by
    rw [opsPass_leftOnly]
    simp only [ATree.skel, reachesFailure]
    rw [opsPass_hasError (.mk lv la ll lr) s cl (path ++ [Dir.L]) fa bi]
    simp [ATree.skel]
  | .mk v a (.mk lv la ll lr) (.mk rv ra rl rr), s, cl, path, fa, bi => by
    rw [opsPass_binary]
    rcases h : cl v lv rv with _ | dt
    · simp only [h, ATree.skel, reachesFailure]
      simp [h]
    · simp only [h, ATree.skel, reachesFailure]
      rw [opsPass_hasError (.mk lv la ll lr) s cl (path ++ [Dir.L]) fa bi,
        opsPass_hasError (.mk rv ra rl rr) s cl (path ++ [Dir.R]) _ _]
      simp [ATree.skel, h]

lemma opsPass_faulty_growth : ∀ (t : ATree) (s : Sizes) (cl : Classifier) (path : List Dir)
    (fa bi : List (List Dir)),
      ∃ g, (calculateNodeOperations t s cl path fa bi).faulty = fa ++ g ∧
        ((calculateNodeOperations t s cl path fa bi).hasError = true → g ≠ [])
  | .nil, _, _, _, fa, _ => ⟨[], by simp [opsPass_nil]⟩
  | .mk v a .nil r, _, _, _, fa, _ => ⟨[], by simp [opsPass_noLeft]⟩
  | .mk v a (.mk lv la ll lr) .nil, s, cl, path, fa, bi => by
    obtain ⟨g, hg, he⟩ := opsPass_faulty_growth (.mk lv la ll lr) s cl (path ++ [Dir.L]) fa bi
    exact ⟨g, by rw [opsPass_leftOnly]; exact ⟨hg, he⟩⟩
  | .mk v a (.mk lv la ll lr) (.mk rv ra rl rr), s, cl, path, fa, bi => by
    obtain ⟨gL, hgL, heL⟩ := opsPass_faulty_growth (.mk lv la ll lr) s cl (path ++ [Dir.L]) fa bi
    obtain ⟨gR, hgR, heR⟩ := opsPass_faulty_growth (.mk rv ra rl rr) s cl (path ++ [Dir.R])
      (calculateNodeOperations (.mk lv la ll lr) s cl (path ++ [Dir.L]) fa bi).faulty
      (calculateNodeOperations (.mk lv la ll lr) s cl (path ++ [Dir.L]) fa bi).binary
    rw [opsPass_binary]
    rcases h : cl v lv rv with _ | dt
    · refine ⟨gL ++ (gR ++ [path]), ?_, ?_⟩
      · simp only [h]
        rw [hgR, hgL]
        simp
      · intro _
        simp
    · refine ⟨gL ++ gR, ?_, ?_⟩
      · simp only [h]
        rw [hgR, hgL]
        simp
      · simp only [h]
        intro herr
        rcases Bool.or_eq_true_iff.mp herr with hL | hR
        · intro hcon
          exact heL hL (by rcases List.append_eq_nil.mp hcon with ⟨h1, _⟩; exact h1)
        · intro hcon
          exact heR hR (by rcases List.append_eq_nil.mp hcon with ⟨_, h2⟩; exact h2)

lemma metrics_mk_eq (s : Sizes) (v : List String) (a : Ann) (l r : ATree) (d : Nat)
    (cl : Classifier) :
    calculateNodeMetrics s (ATree.mk v a l r) d cl =
      (let o := opsPhase s (ATree.mk v a l r) d cl
       if o.hasError then ⟨resetTreeOperations o.tree, 0, o.faulty⟩
       else ⟨addOperationPercentages (setRootTotalOps o.tree o.operations) o.binary o.operations,
             o.operations, o.faulty⟩) := rfl

lemma opsPhase_hasError (s : Sizes) (t : ATree) (d : Nat) (cl : Classifier) :
    (opsPhase s t d cl).hasError = reachesFailure cl t.skel := by
  unfold opsPhase sizedPass
  rw [opsPass_hasError, sp_skel, sizes_skel]

lemma opsPass_noBinary : ∀ (t : ATree) (s : Sizes) (cl : Classifier) (path : List Dir)
    (fa bi : List (List Dir)), noBinaryNode t.skel = true →
      calculateNodeOperations t s cl path fa bi = ⟨t, false, 0, fa, bi⟩
  | .nil, _, _, _, _, _, _ => rfl
  | .mk v a .nil r, _, _, _, _, _, _ => rfl
  | .mk v a (.mk lv la ll lr) .nil, s, cl, path, fa, bi, h => by
    have hl : noBinaryNode (ATree.mk lv la ll lr).skel = true := by
      simp only [ATree.skel, noBinaryNode, Bool.and_eq_true] at h ⊢
      exact h.1.2
    rw [opsPass_leftOnly]
    simp only []
    rw [opsPass_noBinary (.mk lv la ll lr) s cl (path ++ [Dir.L]) fa bi hl]
  | .mk v a (.mk lv la ll lr) (.mk rv ra rl rr), s, cl, path, fa, bi, h => by
    exfalso
    simp [ATree.skel, noBinaryNode] at h

/-- C7: for every tree with no binary node (no node having both a left
and a right child), `calculateNodeMetrics` returns `totalOperations = 0`
and an empty `faultyNodes` list. -/
theorem c7_no_binary_no_operations (s : Sizes) (t : ATree) (d : Nat) (cl : Classifier)
    (h : noBinaryNode t.skel = true) :
    (calculateNodeMetrics s t d cl).totalOperations = 0 ∧
      (calculateNodeMetrics s t d cl).faultyNodes = [] := by
  cases t with
  | nil => exact ⟨rfl, rfl⟩
  | mk v a l r =>
    have hsk : noBinaryNode ((addSizePercentages (sizedPass s (ATree.mk v a l r) d).1
        (sizedPass s (ATree.mk v a l r) d).2).skel) = true := by
      rw [sp_skel]
      unfold sizedPass
      rw [sizes_skel]
      exact h
    have ho : opsPhase s (ATree.mk v a l r) d cl =
        ⟨addSizePercentages (sizedPass s (ATree.mk v a l r) d).1
          (sizedPass s (ATree.mk v a l r) d).2, false, 0, [], []⟩ := by
      unfold opsPhase
      exact opsPass_noBinary _ s cl [] [] [] hsk
    rw [metrics_mk_eq]
    simp only [ho]
    exact ⟨rfl, rfl⟩

/-- C7 witness: a two-node chain (root with only a left child) has no
binary node; the metrics pass yields zero operations and no faulty
nodes. -/
theorem c7_witness :
    noBinaryNode (ATree.skel wTreeC7) = true ∧
      (calculateNodeMetrics s234 wTreeC7 4 clGood).totalOperations = 0 ∧
      (calculateNodeMetrics s234 wTreeC7 4 clGood).faultyNodes = [] :=
  ⟨by decide, c7_no_binary_no_operations s234 wTreeC7 4 clGood (by decide)⟩

/-- C9: a node whose left child is absent is returned unchanged by
`calculateNodeOperations` with `{ hasError: false, operations: 0 }`,
regardless of its right child: the right subtree is never visited, so no
node there is classified, annotated with `operations`/`byteAccesses`, or
added to `faultyNodes` (the whole returned tree, accumulators included,
is exactly the input).  By contrast, `calculateNodeSizes` writes
`tensorSize` and `addSizePercentages` writes `sizePercentage` on every
node of that same tree, the right subtree included. -/
theorem c9_missing_left_child (v : List String) (a : Ann) (r : ATree) (s : Sizes)
    (cl : Classifier) (path : List Dir) (fa bi : List (List Dir)) (d : Nat) (st : Stats) :
    calculateNodeOperations (ATree.mk v a .nil r) s cl path fa bi =
      ⟨ATree.mk v a .nil r, false, 0, fa, bi⟩ ∧
    (∀ x ∈ fieldList Ann.tensorSize ((calculateNodeSizes (ATree.mk v a .nil r) s d st).1),
      x.isVal = true) ∧
    (∀ x ∈ fieldList Ann.sizePercentage (addSizePercentages (ATree.mk v a .nil r) st),
      x.isVal = true) := by
  refine ⟨opsPass_noLeft v a r s cl path fa bi, ?_, ?_⟩
  · intro x hx
    rw [sizes_writes] at hx
    obtain ⟨p, _, hpe⟩ := List.mem_map.mp hx
    rw [← hpe]
    rfl
  · intro x hx
    rw [sp_writes_sp] at hx
    obtain ⟨ts, _, hte⟩ := List.mem_map.mp hx
    rw [← hte]
    rfl

/-- C9 witness: the fixture `cexC3` is exactly such a node (no left
child, a binary right subtree); the operations pass returns it unchanged
with no error, no operations, and empty accumulators, while the size
pass writes an actual `tensorSize` value on the right subtree's root. -/
theorem c9_witness :
    calculateNodeOperations cexC3 s234 clNone [] [] [] = ⟨cexC3, false, 0, [], []⟩ ∧
    JsField.isVal (JsField.val (24 : Nat)) = true :=
  ⟨(c9_missing_left_child ["a"] Ann.fresh nodeIJ s234 clNone [] [] [] 4 initialStats).1,
   (c9_missing_left_child ["a"] Ann.fresh nodeIJ s234 clNone [] [] [] 4 initialStats).2.1
     (JsField.val 24) (by decide)⟩

/-- C3 counterexample: `cexC3` contains a two-child node (`nodeIJ`, at
the root's right) whose classification fails under `clNone`, yet because
the root lacks a left child the operations pass never reaches it:
`calculateNodeMetrics` returns an empty `faultyNodes` list and leaves
that node's `operations` field `undefined` rather than setting it (and
every other node's) to `null`. -/
theorem c3_counterexample :
    containsFailingNode clNone (ATree.skel cexC3) = true ∧
    (calculateNodeMetrics s234 cexC3 4 clNone).faultyNodes = [] ∧
    ((annAt (calculateNodeMetrics s234 cexC3 4 clNone).tree [Dir.R]).getD Ann.fresh).operations
      = JsField.undef := by decide

/-- C3 amended: for every tree on which the operations pass reaches a
node whose dimension classification fails (a failing two-child node not
hidden under a node lacking a left child), `calculateNodeMetrics` sets
`operations`, `operationsPercentage` and `normalizedPercentage` to
`null` on every node, returns `{ totalOperations: 0, faultyNodes }` with
a non-empty `faultyNodes` list, and every node's `tensorSize`,
`sizePercentage` and `normalizedSizePercentage` remain populated. -/
theorem c3_amended_failure_resets_operations (s : Sizes) (t : ATree) (d : Nat)
    (cl : Classifier) (h : reachesFailure cl t.skel = true) :
    (calculateNodeMetrics s t d cl).totalOperations = 0 ∧
    (calculateNodeMetrics s t d cl).faultyNodes ≠ [] ∧
    (∀ p ∈ nodeList (calculateNodeMetrics s t d cl).tree,
      p.2.operations = JsField.null ∧ p.2.operationsPercentage = JsField.null ∧
        p.2.normalizedPercentage = JsField.null) ∧
    (∀ x ∈ fieldList Ann.tensorSize (calculateNodeMetrics s t d cl).tree, x.isVal = true) ∧
    (∀ x ∈ fieldList Ann.sizePercentage (calculateNodeMetrics s t d cl).tree, x.isVal = true) ∧
    (∀ x ∈ fieldList Ann.normalizedSizePercentage (calculateNodeMetrics s t d cl).tree,
      x.isVal = true) := by
  cases t with
  | nil => simp [ATree.skel, reachesFailure] at h
  | mk v a l r =>
    have herr : (opsPhase s (ATree.mk v a l r) d cl).hasError = true := by
      rw [opsPhase_hasError]
      exact h
    have hmet : calculateNodeMetrics s (ATree.mk v a l r) d cl =
        ⟨resetTreeOperations (opsPhase s (ATree.mk v a l r) d cl).tree, 0,
         (opsPhase s (ATree.mk v a l r) d cl).faulty⟩ := by
      rw [metrics_mk_eq]
      simp only [herr, if_true]
    rw [hmet]
    refine ⟨rfl, ?_, ?_, ?_, ?_, ?_⟩
    · obtain ⟨g, hg, he⟩ := opsPass_faulty_growth
        (addSizePercentages (sizedPass s (ATree.mk v a l r) d).1
          (sizedPass s (ATree.mk v a l r) d).2) s cl [] [] []
      have hfg : (opsPhase s (ATree.mk v a l r) d cl).faulty = g := by
        unfold opsPhase
        rw [hg]
        simp
      rw [hfg]
      exact he herr
    · exact reset_nulls _
    · intro x hx
      rw [reset_frame Ann.tensorSize (fun a0 => rfl)] at hx
      rw [show (opsPhase s (ATree.mk v a l r) d cl).tree =
          (calculateNodeOperations (addSizePercentages (sizedPass s (ATree.mk v a l r) d).1
            (sizedPass s (ATree.mk v a l r) d).2) s cl [] [] []).tree from rfl] at hx
      rw [opsPass_frame Ann.tensorSize (fun a0 b o => rfl)] at hx
      rw [sp_frame Ann.tensorSize (fun a0 x0 y0 => rfl)] at hx
      rw [show (sizedPass s (ATree.mk v a l r) d).1 =
          (calculateNodeSizes (ATree.mk v a l r) s d initialStats).1 from rfl] at hx
      rw [sizes_writes] at hx
      obtain ⟨p, _, hpe⟩ := List.mem_map.mp hx
      rw [← hpe]
      rfl
    · intro x hx
      rw [reset_frame Ann.sizePercentage (fun a0 => rfl)] at hx
      rw [show (opsPhase s (ATree.mk v a l r) d cl).tree =
          (calculateNodeOperations (addSizePercentages (sizedPass s (ATree.mk v a l r) d).1
            (sizedPass s (ATree.mk v a l r) d).2) s cl [] [] []).tree from rfl] at hx
      rw [opsPass_frame Ann.sizePercentage (fun a0 b o => rfl)] at hx
      rw [sp_writes_sp] at hx
      obtain ⟨ts, _, hte⟩ := List.mem_map.mp hx
      rw [← hte]
      rfl
    · intro x hx
      rw [reset_frame Ann.normalizedSizePercentage (fun a0 => rfl)] at hx
      rw [show (opsPhase s (ATree.mk v a l r) d cl).tree =
          (calculateNodeOperations (addSizePercentages (sizedPass s (ATree.mk v a l r) d).1
            (sizedPass s (ATree.mk v a l r) d).2) s cl [] [] []).tree from rfl] at hx
      rw [opsPass_frame Ann.normalizedSizePercentage (fun a0 b o => rfl)] at hx
      exact sp_writes_nsp _ _ x hx

/-- C3 witness: on the failing fixture `wTreeC10` (root classification
fails, left child is a valid contraction) the amended statement holds;
the summary is `{ totalOperations: 0, faultyNodes: [root] }` and the
left child's `operations` field is `null` after the reset. -/
theorem c3_witness :
    (calculateNodeMetrics s234 wTreeC10 4 clGood).totalOperations = 0 ∧
    (calculateNodeMetrics s234 wTreeC10 4 clGood).faultyNodes ≠ [] :=
  ⟨(c3_amended_failure_resets_operations s234 wTreeC10 4 clGood (by decide)).1,
   (c3_amended_failure_resets_operations s234 wTreeC10 4 clGood (by decide)).2.1⟩

/-- C4 counterexample: under `clGood`, the root of `cexC4` fails
classification while its already-processed left child (`nodeIJ`)
contributed a subtotal of 42 operations; the failing call returns
`operations: 0` alongside `hasError: true`, not the non-zero children
subtotal the claim describes. -/
theorem c4_counterexample :
    (calculateNodeOperations cexC4 s234 clGood [] [] []).hasError = true ∧
    (calculateNodeOperations cexC4 s234 clGood [] [] []).operations = 0 ∧
    (calculateNodeOperations nodeIJ s234 clGood [Dir.L] [] []).operations = 42 := by decide

/-- C4 amended: when classification fails at a two-child node, the call
pushes the node onto `faultyNodes` and returns `{ hasError: true,
operations: 0 }`, discarding the subtotal already accumulated from its
recursively processed children as well as its own cost, and writing no
annotation on the node itself; it is at the ancestors whose own
classification succeeds that an error flag from a child subtree is
propagated alongside the still-accumulated (possibly non-zero) subtotal
`left + right + own`, un-zeroed until the outermost caller. -/
theorem c4_amended_binary_node_semantics (v lv rv : List String) (a la ra : Ann)
    (ll lr rl rr : ATree) (s : Sizes) (cl : Classifier) (path : List Dir)
    (fa bi : List (List Dir)) :
    (cl v lv rv = none →
      calculateNodeOperations (ATree.mk v a (ATree.mk lv la ll lr) (ATree.mk rv ra rl rr))
          s cl path fa bi =
        ⟨ATree.mk v a
           (calculateNodeOperations (ATree.mk lv la ll lr) s cl (path ++ [Dir.L]) fa bi).tree
           (calculateNodeOperations (ATree.mk rv ra rl rr) s cl (path ++ [Dir.R])
             (calculateNodeOperations (ATree.mk lv la ll lr) s cl (path ++ [Dir.L]) fa bi).faulty
             (calculateNodeOperations (ATree.mk lv la ll lr) s cl (path ++ [Dir.L]) fa bi).binary).tree,
         true, 0,
         (calculateNodeOperations (ATree.mk rv ra rl rr) s cl (path ++ [Dir.R])
           (calculateNodeOperations (ATree.mk lv la ll lr) s cl (path ++ [Dir.L]) fa bi).faulty
           (calculateNodeOperations (ATree.mk lv la ll lr) s cl (path ++ [Dir.L]) fa bi).binary).faulty
           ++ [path],
         (calculateNodeOperations (ATree.mk rv ra rl rr) s cl (path ++ [Dir.R])
           (calculateNodeOperations (ATree.mk lv la ll lr) s cl (path ++ [Dir.L]) fa bi).faulty
           (calculateNodeOperations (ATree.mk lv la ll lr) s cl (path ++ [Dir.L]) fa bi).binary).binary⟩) ∧
    (∀ dt, cl v lv rv = some dt →
      (calculateNodeOperations (ATree.mk v a (ATree.mk lv la ll lr) (ATree.mk rv ra rl rr))
          s cl path fa bi).hasError =
        ((calculateNodeOperations (ATree.mk lv la ll lr) s cl (path ++ [Dir.L]) fa bi).hasError ||
         (calculateNodeOperations (ATree.mk rv ra rl rr) s cl (path ++ [Dir.R])
           (calculateNodeOperations (ATree.mk lv la ll lr) s cl (path ++ [Dir.L]) fa bi).faulty
           (calculateNodeOperations (ATree.mk lv la ll lr) s cl (path ++ [Dir.L]) fa bi).binary).hasError) ∧
      (calculateNodeOperations (ATree.mk v a (ATree.mk lv la ll lr) (ATree.mk rv ra rl rr))
          s cl path fa bi).operations =
        (calculateNodeOperations (ATree.mk lv la ll lr) s cl (path ++ [Dir.L]) fa bi).operations +
        (calculateNodeOperations (ATree.mk rv ra rl rr) s cl (path ++ [Dir.R])
          (calculateNodeOperations (ATree.mk lv la ll lr) s cl (path ++ [Dir.L]) fa bi).faulty
          (calculateNodeOperations (ATree.mk lv la ll lr) s cl (path ++ [Dir.L]) fa bi).binary).operations +
        calculateOperations (dimTypesObj dt) s) := by
  constructor
  · intro h
    rw [opsPass_binary]
    simp only [h]
  · intro dt h
    rw [opsPass_binary]
    simp only [h]
    exact ⟨trivial, trivial⟩

/-- C4 witness: instantiating the amended statement on `cexC4` (failing
root over a valid left contraction): the failing call returns
`operations = 0` with `hasError = true`. -/
theorem c4_witness :
    (calculateNodeOperations cexC4 s234 clGood [] [] []).operations = 0 ∧
    (calculateNodeOperations cexC4 s234 clGood [] [] []).hasError = true := by
  have h := (c4_amended_binary_node_semantics ["x"] ["i", "j"] ["z"] Ann.fresh Ann.fresh Ann.fresh
    leafIK leafKJ ATree.nil ATree.nil s234 clGood [] [] []).1 (by decide)
  constructor
  · show (calculateNodeOperations (ATree.mk ["x"] Ann.fresh
        (ATree.mk ["i", "j"] Ann.fresh leafIK leafKJ)
        (ATree.mk ["z"] Ann.fresh ATree.nil ATree.nil)) s234 clGood [] [] []).operations = 0
    rw [h]
  · show (calculateNodeOperations (ATree.mk ["x"] Ann.fresh
        (ATree.mk ["i", "j"] Ann.fresh leafIK leafKJ)
        (ATree.mk ["z"] Ann.fresh ATree.nil ATree.nil)) s234 clGood [] [] []).hasError = true
    rw [h]

lemma treeTensorSum_eq_sum (s : Sizes) (d : Nat) :
    ∀ t : ATree, ((nodeList t).map (fun p => calculateDimensionProduct p.1 s 1 * d)).sum =
      treeTensorSum s d t
  | .nil => rfl
  | .mk v a l r => by
    simp only [nodeList, treeTensorSum, List.map_cons, List.map_append, List.sum_cons,
      List.sum_append]
    rw [treeTensorSum_eq_sum s d l, treeTensorSum_eq_sum s d r]
    omega

/-- C5 counterexample: on the three-node fixture `cexC5` (every node
labelled `['i']`, `i = 2`, data-type size 1) the leaf `tensorSize`
values sum to 4, but `stats.totalTensorSize` — the denominator of
`sizePercentage` — is 6, because every node (the root included)
contributes to the total. -/
theorem c5_counterexample :
    leafTensorSum (calculateNodeSizes cexC5 s234 1 initialStats).1 = 4 ∧
    ((calculateNodeSizes cexC5 s234 1 initialStats).2).totalTensorSize = 6 ∧
    leafTensorSum (calculateNodeSizes cexC5 s234 1 initialStats).1 ≠
      ((calculateNodeSizes cexC5 s234 1 initialStats).2).totalTensorSize := by decide

/-- C5 amended: `stats.totalTensorSize` equals the sum of the written
`tensorSize` values over ALL nodes of the tree (not only the leaves),
and `addSizePercentages` computes every node's `sizePercentage` as
`tensorSize / stats.totalTensorSize * 100` with exactly that total as
the denominator. -/
theorem c5_amended_total_sums_all_nodes (t : ATree) (s : Sizes) (d : Nat) :
    ((calculateNodeSizes t s d initialStats).2).totalTensorSize =
      ((fieldList Ann.tensorSize (calculateNodeSizes t s d initialStats).1).map jsValNat).sum ∧
    (∀ (t2 : ATree) (st : Stats),
      fieldList Ann.sizePercentage (addSizePercentages t2 st) =
        (fieldList Ann.tensorSize t2).map (fun f =>
          JsField.val (jsMul (jsDiv (jsNumF f) (some (st.totalTensorSize : ℚ))) (some 100)))) := by
  constructor
  · rw [sizes_total, sizes_writes]
    simp only [List.map_map, Function.comp_def, jsValNat]
    rw [treeTensorSum_eq_sum s d t]
    simp [initialStats]
  · intro t2 st
    exact sp_writes_sp t2 st

lemma jsDiv_zero (x : JSQ) : jsDiv x (some 0) = none := by
  cases x <;> simp [jsDiv]

lemma treeTensorSum_zero (s : Sizes) : ∀ t : ATree, treeTensorSum s 0 t = 0
  | .nil => rfl
  | .mk v a l r => by
    simp only [treeTensorSum]
    rw [treeTensorSum_zero s l, treeTensorSum_zero s r]
    simp

lemma setRoot_frame {α : Type} (f : Ann → α)
    (hf : ∀ a n, f { a with totalOperations := JsField.val n } = f a) (t : ATree) (n : Nat) :
    fieldList f (setRootTotalOps t n) = fieldList f t := by
  cases t with
  | nil => rfl
  | mk v a l r => simp [setRootTotalOps, fieldList_mk, hf]

lemma updateAt_frame {α : Type} (f : Ann → α) (g : Ann → Ann) (hf : ∀ a, f (g a) = f a) :
    ∀ (t : ATree) (p : List Dir), fieldList f (updateAt t p g) = fieldList f t
  | .nil, _ => rfl
  | .mk v a l r, [] => by simp [updateAt, fieldList_mk, hf]
  | .mk v a l r, Dir.L :: p => by
    simp only [updateAt, fieldList_mk]
    rw [updateAt_frame f g hf l p]
  | .mk v a l r, Dir.R :: p => by
    simp only [updateAt, fieldList_mk]
    rw [updateAt_frame f g hf r p]

lemma foldl_updateAt_frame {α : Type} (f : Ann → α) (g : Ann → Ann) (hf : ∀ a, f (g a) = f a) :
    ∀ (ps : List (List Dir)) (t : ATree),
      fieldList f (ps.foldl (fun t p => updateAt t p g) t) = fieldList f t
  | [], t => rfl
  | p :: ps, t => by
    simp only [List.foldl_cons]
    rw [foldl_updateAt_frame f g hf ps (updateAt t p g), updateAt_frame f g hf t p]

lemma addNorm_frame {α : Type} (f : Ann → α)
    (hf : ∀ a x, f { a with normalizedPercentage := JsField.val x } = f a) (mnP mxP : JSQ) :
    ∀ t : ATree, fieldList f (addNormalizedPercentages mnP mxP t) = fieldList f t
  | .nil => rfl
  | .mk v a l r => by
    simp only [addNormalizedPercentages]
    rw [fieldList_mk, fieldList_mk]
    rw [addNorm_frame f hf mnP mxP l, addNorm_frame f hf mnP mxP r]
    congr 1
    cases l <;> cases r <;> simp [hf]

lemma addOpPct_frame {α : Type} (f : Ann → α)
    (hf1 : ∀ a x n,
      f { a with operationsPercentage := JsField.val x, totalOperations := JsField.val n } = f a)
    (hf2 : ∀ a x, f { a with normalizedPercentage := JsField.val x } = f a)
    (t : ATree) (binary : List (List Dir)) (total : Nat) :
    fieldList f (addOperationPercentages t binary total) = fieldList f t := by
  unfold addOperationPercentages
  rw [addNorm_frame f hf2]
  exact foldl_updateAt_frame f _ (fun a => hf1 a _ _) binary t

/-- C6 counterexample: on a single-leaf tree with `dataTypeSize = 0`
(`stats.totalTensorSize = 0`), `calculateNodeMetrics` leaves the root's
`sizePercentage` as the non-finite `0/0` (`NaN`, modelled
`JsField.val none`), not `0`: there is no zero-total guard in
`addSizePercentages`. -/
theorem c6_counterexample :
    ((annAt (calculateNodeMetrics s234 cexC6 0 clGood).tree []).getD Ann.fresh).sizePercentage
      = JsField.val (none : JSQ) ∧
    JsField.val (none : JSQ) ≠ JsField.val (some (0 : ℚ)) := by decide

/-- C6 amended: the guards that exist are `calculateDimensionProduct`
returning its initial value (1 at every call site) on an empty index
list, and `normalizeToPercentage` returning 0 whenever `min === max`
(which covers single-element percentage sets); but a zero
`stats.totalTensorSize` is NOT guarded: when it is zero (e.g. when
`dataTypeSize = 0`), every node's `sizePercentage` is the non-finite
`NaN`/`Infinity` value (modelled `JsField.val none`), not 0. -/
theorem c6_amended_degenerate_guards :
    (∀ (v m : ℚ), normalizeToPercentage (some v) (some m) (some m) = some 0) ∧
    (∀ (s : Sizes) (init : Nat), calculateDimensionProduct [] s init = init) ∧
    (∀ (s : Sizes) (t : ATree) (cl : Classifier), t ≠ ATree.nil →
      ∀ x ∈ fieldList Ann.sizePercentage (calculateNodeMetrics s t 0 cl).tree,
        x = JsField.val (none : JSQ)) := by
  refine ⟨?_, ?_, ?_⟩
  · intro v m
    simp [normalizeToPercentage, jsStrictEq]
  · intro s init
    rfl
  · intro s t cl hne x hx
    cases t with
    | nil => exact absurd rfl hne
    | mk v a l r =>
      have htot : ((sizedPass s (ATree.mk v a l r) 0).2).totalTensorSize = 0 := by
        unfold sizedPass
        rw [sizes_total]
        simp [initialStats, treeTensorSum_zero]
      have hsp : ∀ y ∈ fieldList Ann.sizePercentage
          (addSizePercentages (sizedPass s (ATree.mk v a l r) 0).1
            (sizedPass s (ATree.mk v a l r) 0).2), y = JsField.val (none : JSQ) := by
        intro y hy
        rw [sp_writes_sp, htot] at hy
        obtain ⟨ts, _, hte⟩ := List.mem_map.mp hy
        rw [← hte, show ((0 : Nat) : ℚ) = 0 from Nat.cast_zero, jsDiv_zero]
        rfl
      have hfinal : fieldList Ann.sizePercentage (calculateNodeMetrics s (ATree.mk v a l r) 0 cl).tree
          = fieldList Ann.sizePercentage (addSizePercentages (sizedPass s (ATree.mk v a l r) 0).1
              (sizedPass s (ATree.mk v a l r) 0).2) := by
        rw [metrics_mk_eq]
        cases hb : (opsPhase s (ATree.mk v a l r) 0 cl).hasError with
        | true =>
          simp only [hb, if_true]
          rw [reset_frame Ann.sizePercentage (fun a0 => rfl)]
          unfold opsPhase
          rw [opsPass_frame Ann.sizePercentage (fun a0 b o => rfl)]
        | false =>
          simp only [hb, Bool.false_eq_true, if_false]
          rw [addOpPct_frame Ann.sizePercentage (fun a0 x0 n0 => rfl) (fun a0 x0 => rfl)]
          rw [setRoot_frame Ann.sizePercentage (fun a0 n0 => rfl)]
          unfold opsPhase
          rw [opsPass_frame Ann.sizePercentage (fun a0 b o => rfl)]
      rw [hfinal] at hx
      exact hsp x hx

/-- C6 witness: both guard instances, plus the zero-total case applied
at the single-leaf fixture with `dataTypeSize = 0`. -/
theorem c6_witness :
    normalizeToPercentage (some 7) (some 3) (some 3) = some 0 ∧
    calculateDimensionProduct [] s234 1 = 1 ∧
    JsField.val (none : JSQ) = JsField.val (none : JSQ) :=
  ⟨c6_amended_degenerate_guards.1 7 3,
   c6_amended_degenerate_guards.2.1 s234 1,
   c6_amended_degenerate_guards.2.2 s234 cexC6 clGood (by decide) (JsField.val none) (by decide)⟩

lemma reset_nodeList : ∀ t : ATree,
    nodeList (resetTreeOperations t) = (nodeList t).map (fun p => (p.1, resetAnn p.2))
  | .nil => rfl
  | .mk v a l r => by
    simp only [resetTreeOperations, nodeList, List.map_cons, List.map_append]
    rw [reset_nodeList l, reset_nodeList r]

lemma opsPass_faulty_no_error : ∀ (t : ATree) (s : Sizes) (cl : Classifier) (path : List Dir)
    (fa bi : List (List Dir)),
      (calculateNodeOperations t s cl path fa bi).hasError = false →
      (calculateNodeOperations t s cl path fa bi).faulty = fa
  | .nil, _, _, _, _, _, _ => rfl
  | .mk v a .nil r, _, _, _, _, _, _ => rfl
  | .mk v a (.mk lv la ll lr) .nil, s, cl, path, fa, bi, h => by
    rw [opsPass_leftOnly] at h ⊢
    exact opsPass_faulty_no_error (.mk lv la ll lr) s cl (path ++ [Dir.L]) fa bi h
  | .mk v a (.mk lv la ll lr) (.mk rv ra rl rr), s, cl, path, fa, bi, h => by
    rw [opsPass_binary] at h ⊢
    rcases hc : cl v lv rv with _ | dt
    · simp only [hc] at h
      exact absurd h (by decide)
    · simp only [hc, Bool.or_eq_false_iff] at h
      simp only [hc]
      rw [opsPass_faulty_no_error (.mk rv ra rl rr) s cl (path ++ [Dir.R]) _ _ h.2,
        opsPass_faulty_no_error (.mk lv la ll lr) s cl (path ++ [Dir.L]) fa bi h.1]

/-- C10: `resetTreeOperations` nulls exactly `operations`,
`operationsPercentage` and `normalizedPercentage`, leaving `value`,
`tensorSize`, `sizePercentage`, `normalizedSizePercentage`,
`byteAccesses` and `totalOperations` untouched on every node; hence when
`calculateNodeMetrics` returns with a non-empty `faultyNodes` list, the
returned tree carries, node for node, exactly the `byteAccesses` values
the failed operations pass wrote (so binary nodes classified before the
failure keep them) and exactly the `totalOperations` values the input
tree already had (so a root annotated by an earlier successful pass
keeps it). -/
theorem c10_reset_preserves_byteAccesses :
    (∀ t : ATree,
      ((nodeList (resetTreeOperations t)).map (fun p =>
          (p.1, p.2.tensorSize, p.2.sizePercentage, p.2.normalizedSizePercentage,
           p.2.byteAccesses, p.2.totalOperations)) =
        (nodeList t).map (fun p =>
          (p.1, p.2.tensorSize, p.2.sizePercentage, p.2.normalizedSizePercentage,
           p.2.byteAccesses, p.2.totalOperations))) ∧
      (∀ p ∈ nodeList (resetTreeOperations t),
        p.2.operations = JsField.null ∧ p.2.operationsPercentage = JsField.null ∧
          p.2.normalizedPercentage = JsField.null)) ∧
    (∀ (s : Sizes) (t : ATree) (d : Nat) (cl : Classifier),
      (calculateNodeMetrics s t d cl).faultyNodes ≠ [] →
        fieldList Ann.byteAccesses (calculateNodeMetrics s t d cl).tree =
          fieldList Ann.byteAccesses (opsPhase s t d cl).tree ∧
        fieldList Ann.totalOperations (calculateNodeMetrics s t d cl).tree =
          fieldList Ann.totalOperations t) := by
  constructor
  · intro t
    constructor
    · rw [reset_nodeList, List.map_map]
      rfl
    · exact reset_nulls t
  · intro s t d cl hne
    cases t with
    | nil => exact absurd rfl hne
    | mk v a l r =>
      cases hb : (opsPhase s (ATree.mk v a l r) d cl).hasError with
      | false =>
        exfalso
        apply hne
        rw [metrics_mk_eq]
        simp only [hb, Bool.false_eq_true, if_false]
        exact opsPass_faulty_no_error _ s cl [] [] [] hb
      | true =>
        have hmet : calculateNodeMetrics s (ATree.mk v a l r) d cl =
            ⟨resetTreeOperations (opsPhase s (ATree.mk v a l r) d cl).tree, 0,
             (opsPhase s (ATree.mk v a l r) d cl).faulty⟩ := by
          rw [metrics_mk_eq]
          simp only [hb, if_true]
        rw [hmet]
        constructor
        · exact reset_frame Ann.byteAccesses (fun a0 => rfl) _
        · rw [reset_frame Ann.totalOperations (fun a0 => rfl)]
          unfold opsPhase
          rw [opsPass_frame Ann.totalOperations (fun a0 b o => rfl)]
          rw [sp_frame Ann.totalOperations (fun a0 x0 y0 => rfl)]
          unfold sizedPass
          rw [sizes_frame Ann.totalOperations (fun a0 n0 => rfl)]

/-- C10 witness: on the failing fixture `wTreeC10` the summary has a
non-empty faulty list, the returned tree's `byteAccesses` match the
operations pass output exactly (the successfully classified left child
keeps its value 26), and the root keeps the `totalOperations` value 99
written by an earlier pass. -/
theorem c10_witness :
    (calculateNodeMetrics s234 wTreeC10 4 clGood).faultyNodes ≠ [] ∧
    fieldList Ann.byteAccesses (calculateNodeMetrics s234 wTreeC10 4 clGood).tree =
      fieldList Ann.byteAccesses (opsPhase s234 wTreeC10 4 clGood).tree ∧
    ((annAt (calculateNodeMetrics s234 wTreeC10 4 clGood).tree [Dir.L]).getD
        Ann.fresh).byteAccesses = JsField.val 26 ∧
    ((annAt (calculateNodeMetrics s234 wTreeC10 4 clGood).tree []).getD
        Ann.fresh).totalOperations = JsField.val 99 :=
  ⟨by decide,
   (c10_reset_preserves_byteAccesses.2 s234 wTreeC10 4 clGood (by decide)).1,
   by decide, by decide⟩
